import Mathlib

/-!
Verification development for the MicrostructureAndExecution repository.

The Python sources under `src/` are embedded shallowly:
* prices, sizes and money amounts (Python floats) are modelled as rationals `ℚ`,
  so all arithmetic is exact;
* the two transcendental float routines that the signal engine uses,
  `np.log` and `np.sqrt` (inside `np.std`), are kept as abstract parameters
  (`NpFns`): every theorem below is proved for an arbitrary choice of these
  functions, hence in particular for the real ones;
* Python exceptions are modelled with `Except PyErr`; `PyErr` records the
  class of the raised exception (`ValueError`, `TypeError`) and its message;
* Python `deque(maxlen=m)` is modelled by `dqAppend`, which drops the oldest
  element when full;
* Python's stable `sorted` (by price, optionally reversed) is modelled with
  `List.insertionSort`, which Mathlib shows is stable for a total transitive
  relation.

Definition names follow the source (`OrderBook.apply_diff`,
`SignalEngine.update`, `Accountant.record_fill`, ...).
-/

/-- A raised Python exception: the class of the exception and its message.
The repository only ever raises `ValueError` (invalid side tags) itself;
`TypeError` is what the interpreter raises for `None - float`. -/
inductive PyErr where
  | valueError (msg : String)
  | typeError (msg : String)
deriving DecidableEq

/-- The Python class name of a raised exception. -/
def PyErr.className : PyErr → String
  | .valueError _ => "ValueError"
  | .typeError _ => "TypeError"

/-- Embedding of Python `str.lower()` (the repository only lower-cases ASCII
side tags). -/
def pyLower (s : String) : String := ⟨s.data.map Char.toLower⟩

/-- A price level: `(price, size)`, as stored in `OrderBook.bids` / `.asks`. -/
abbrev Level : Type := ℚ × ℚ

/-- The comparison used by `sorted(..., key=lambda x: x[0], reverse=True)`:
`a` comes no later than `b` iff `a`'s price is at least `b`'s price. -/
def priceDescR (a b : Level) : Prop := b.1 ≤ a.1

/-- The comparison used by `sorted(..., key=lambda x: x[0])`. -/
def priceAscR (a b : Level) : Prop := a.1 ≤ b.1

instance : DecidableRel priceDescR := fun a b => inferInstanceAs (Decidable (b.1 ≤ a.1))

instance : DecidableRel priceAscR := fun a b => inferInstanceAs (Decidable (a.1 ≤ b.1))

instance : IsTotal Level priceDescR := ⟨fun a b => le_total b.1 a.1⟩

instance : IsTotal Level priceAscR := ⟨fun a b => le_total a.1 b.1⟩

instance : IsTrans Level priceDescR := ⟨fun _ _ _ hab hbc => le_trans hbc hab⟩

instance : IsTrans Level priceAscR := ⟨fun _ _ _ hab hbc => le_trans hab hbc⟩

/-- Stable descending sort by price: `sorted(levels, key=price, reverse=True)`. -/
def sortDescByPrice (l : List Level) : List Level := List.insertionSort priceDescR l

/-- Stable ascending sort by price: `sorted(levels, key=price)`. -/
def sortAscByPrice (l : List Level) : List Level := List.insertionSort priceAscR l

/-- The order book of `src/microstructure/orderbook.py`: a maximum depth and
the two price ladders. `_validate_invariant` only emits a log line, so it has
no effect on the state and is not modelled. -/
structure OrderBook where
  depth : ℕ
  bids : List Level
  asks : List Level
deriving DecidableEq

/-- A freshly constructed, empty order book (`OrderBook.__init__`). -/
def OrderBook.empty (depth : ℕ) : OrderBook := ⟨depth, [], []⟩

/-- Embedding of `OrderBook.apply_snapshot`: replace both ladders, sorting
bids descending and asks ascending by price and truncating to `depth`. -/
def OrderBook.apply_snapshot (bk : OrderBook) (bids asks : List Level) : OrderBook :=
  { bk with
    bids := (sortDescByPrice bids).take bk.depth
    asks := (sortAscByPrice asks).take bk.depth }

/-- Embedding of `OrderBook._update_level`: drop any level at `price`, append
the new `(price, size)`, re-sort, keep the top `depth` levels. An invalid
side raises `ValueError`. -/
def OrderBook.update_level (bk : OrderBook) (side : String) (price size : ℚ) :
    Except PyErr OrderBook :=
  if pyLower side = "bid" then
    .ok { bk with
      bids := (sortDescByPrice ((bk.bids.filter fun l => l.1 != price) ++ [(price, size)])).take
        bk.depth }
  else if pyLower side = "ask" then
    .ok { bk with
      asks := (sortAscByPrice ((bk.asks.filter fun l => l.1 != price) ++ [(price, size)])).take
        bk.depth }
  else
    .error (.valueError ("Invalid side: " ++ side ++ ". Must be bid or ask"))

/-- Embedding of `OrderBook._remove_level`: drop the level at `price` on the
given side; invalid side raises `ValueError`. -/
def OrderBook.remove_level (bk : OrderBook) (side : String) (price : ℚ) :
    Except PyErr OrderBook :=
  if pyLower side = "bid" then
    .ok { bk with bids := bk.bids.filter fun l => l.1 != price }
  else if pyLower side = "ask" then
    .ok { bk with asks := bk.asks.filter fun l => l.1 != price }
  else
    .error (.valueError ("Invalid side: " ++ side ++ ". Must be bid or ask"))

/-- Embedding of `OrderBook.apply_diff`: the source tests
`action == remove or size == 0` (note: equality with zero, not `<=`). -/
def OrderBook.apply_diff (bk : OrderBook) (side : String) (price size : ℚ)
    (action : String) : Except PyErr OrderBook :=
  if action = "remove" ∨ size = 0 then bk.remove_level side price
  else bk.update_level side price size

/-- Embedding of `OrderBook.best_bid`. -/
def OrderBook.best_bid (bk : OrderBook) : Option ℚ :=
  match bk.bids with
  | [] => none
  | l :: _ => some l.1

/-- Embedding of `OrderBook.best_ask`. -/
def OrderBook.best_ask (bk : OrderBook) : Option ℚ :=
  match bk.asks with
  | [] => none
  | l :: _ => some l.1

/-- Embedding of `OrderBook.mid_price`. -/
def OrderBook.mid_price (bk : OrderBook) : Option ℚ :=
  match bk.best_bid, bk.best_ask with
  | some b, some a => some ((b + a) / 2)
  | _, _ => none

/-- Embedding of `OrderBook.spread`. -/
def OrderBook.spread (bk : OrderBook) : Option ℚ :=
  match bk.best_bid, bk.best_ask with
  | some b, some a => some (a - b)
  | _, _ => none

/-- Embedding of `OrderBook.top_depth`. -/
def OrderBook.top_depth (bk : OrderBook) (k : ℕ) : List Level × List Level :=
  (bk.bids.take k, bk.asks.take k)

/-- One mutation of the order book, as driven by the backtest loop. -/
inductive BookOp where
  | snapshot (bids asks : List Level)
  | diff (side : String) (price size : ℚ) (action : String)

/-- Apply a single `BookOp`. -/
def applyBookOp (bk : OrderBook) : BookOp → Except PyErr OrderBook
  | .snapshot b a => .ok (bk.apply_snapshot b a)
  | .diff side price size action => bk.apply_diff side price size action

/-- Run a sequence of book operations, stopping at the first raised error. -/
def runBookOps (bk : OrderBook) : List BookOp → Except PyErr OrderBook
  | [] => .ok bk
  | op :: ops =>
    match applyBookOp bk op with
    | .error e => .error e
    | .ok bk' => runBookOps bk' ops

/-- A snapshot operation whose bid list and ask list each mention every price
at most once (diff operations are unrestricted). -/
def BookOp.distinctPrices : BookOp → Prop
  | .snapshot b a => (b.map Prod.fst).Nodup ∧ (a.map Prod.fst).Nodup
  | .diff _ _ _ _ => True

instance : DecidablePred BookOp.distinctPrices := fun op => by
  cases op with
  | snapshot b a => exact inferInstanceAs (Decidable (_ ∧ _))
  | diff side price size action => exact inferInstanceAs (Decidable True)

/-- The order-book shape invariant, relative to a configured depth `d`:
bids strictly descending by price, asks strictly ascending, both ladders no
longer than `d`, and the stored depth still `d`. -/
def BookInv (d : ℕ) (bk : OrderBook) : Prop :=
  bk.bids.Pairwise (fun x y => y.1 < x.1) ∧ bk.bids.length ≤ d ∧
  bk.asks.Pairwise (fun x y => x.1 < y.1) ∧ bk.asks.length ≤ d ∧
  bk.depth = d

instance (d : ℕ) (bk : OrderBook) : Decidable (BookInv d bk) :=
  inferInstanceAs (Decidable (_ ∧ _ ∧ _ ∧ _ ∧ _))

/-- The two float routines from numpy that the signal engine relies on.
They are kept abstract: all theorems hold for every choice, in particular
for the true floating-point `np.log` and `np.sqrt`. -/
structure NpFns where
  log : ℚ → ℚ
  sqrt : ℚ → ℚ

/-- State of `src/microstructure/signals.py` `SignalEngine`: the three
rolling windows (deques) and the previous mid price, plus the two
configuration integers. -/
structure SEState where
  window_size : ℕ
  imbalance_depth : ℕ
  mid_prices : List ℚ
  returns : List ℚ
  imbalances : List ℚ
  prev_mid : Option ℚ
deriving DecidableEq

/-- A fresh engine (`SignalEngine.__init__`). -/
def SEState.init (window_size imbalance_depth : ℕ) : SEState :=
  ⟨window_size, imbalance_depth, [], [], [], none⟩

/-- Append to a `deque(maxlen=m)`: the oldest (leftmost) entry is dropped
once the buffer is full. -/
def dqAppend (m : ℕ) (l : List ℚ) (x : ℚ) : List ℚ :=
  let l2 := l ++ [x]
  l2.drop (l2.length - m)

/-- Embedding of `np.mean`. -/
def npMean (w : List ℚ) : ℚ := w.sum / w.length

/-- Embedding of `np.var` (population variance); `np.std w = np.sqrt (npVar w)`. -/
def npVar (w : List ℚ) : ℚ :=
  (w.map fun x => (x - npMean w) ^ 2).sum / w.length

/-- The signal snapshot dictionary returned by `SignalEngine.update`. -/
structure Signals where
  mid_price : Option ℚ
  spread : Option ℚ
  mid_price_return : Option ℚ
  depth_imbalance : Option ℚ
  imbalance_zscore : Option ℚ
  return_zscore : Option ℚ
deriving DecidableEq

/-- Embedding of `SignalEngine._calculate_depth_imbalance`. -/
def SEState.calc_depth_imbalance (s : SEState) (bk : OrderBook) : Option ℚ :=
  let bids := (bk.top_depth s.imbalance_depth).1
  let asks := (bk.top_depth s.imbalance_depth).2
  if bids = [] ∨ asks = [] then none
  else
    let bid_size := (bids.map Prod.snd).sum
    let ask_size := (asks.map Prod.snd).sum
    if bid_size + ask_size = 0 then none
    else some ((bid_size - ask_size) / (bid_size + ask_size))

/-- Embedding of `SignalEngine._z_score`. The source returns `0.0` when the
window has fewer than two entries, computes `mean` and `std` of the window,
returns `0.0` when `std == 0`, and only then evaluates `(value - mean)/std`;
when `value` is `None` (which the caller can pass for the depth imbalance)
that final subtraction raises a `TypeError`. -/
def py_z_score (np : NpFns) (value : Option ℚ) (window : List ℚ) : Except PyErr ℚ :=
  if window.length < 2 then .ok 0
  else
    let mean := npMean window
    let std := np.sqrt (npVar window)
    if std = 0 then .ok 0
    else
      match value with
      | none => .error (.typeError "unsupported operand type for -: NoneType and float")
      | some v => .ok ((v - mean) / std)

/-- The log-return step of `SignalEngine.update`: when a positive previous
mid price exists, compute `np.log(mid/prev)` and push it into the returns
window; otherwise the return for this event is `0.0` and nothing is pushed.
Returns the pair (current return value, new returns window). -/
def SignalEngine.retStep (np : NpFns) (s : SEState) (mid : ℚ) : ℚ × List ℚ :=
  match s.prev_mid with
  | some pm =>
    if 0 < pm then
      let lr := np.log (mid / pm)
      (lr, dqAppend s.window_size s.returns lr)
    else (0, s.returns)
  | none => (0, s.returns)

/-- The imbalance-window step of `SignalEngine.update`: push the depth
imbalance when it is present, leave the window untouched when it is absent. -/
def SignalEngine.imbPush (s : SEState) (imb? : Option ℚ) : List ℚ :=
  match imb? with
  | some v => dqAppend s.window_size s.imbalances v
  | none => s.imbalances

/-- The z-score gate of `SignalEngine.update`: once the (already pushed)
window holds at least `window_size` entries, score `value` against the
window excluding its last entry (`list(window)[:-1]` in the source),
otherwise leave the signal absent. -/
def SignalEngine.zGate (np : NpFns) (window_size : ℕ) (value : Option ℚ)
    (window : List ℚ) : Except PyErr (Option ℚ) :=
  if window_size ≤ window.length then (py_z_score np value window.dropLast).map some
  else .ok none

/-- Embedding of `SignalEngine.update`. Returns the new engine state together
with the signal snapshot, or the exception it raises. -/
def SignalEngine.update (np : NpFns) (s : SEState) (bk : OrderBook) :
    Except PyErr (SEState × Signals) :=
  match bk.mid_price with
  | none => .ok (s, ⟨none, bk.spread, none, none, none, none⟩)
  | some mid =>
    let retP := SignalEngine.retStep np s mid
    let mids1 := dqAppend (s.window_size + 1) s.mid_prices mid
    let imb? := s.calc_depth_imbalance bk
    let imbs1 := SignalEngine.imbPush s imb?
    let s1 : SEState :=
      { s with mid_prices := mids1, returns := retP.2, imbalances := imbs1, prev_mid := some mid }
    match SignalEngine.zGate np s.window_size imb? imbs1 with
    | .error e => .error e
    | .ok iz =>
      match SignalEngine.zGate np s.window_size (some retP.1) retP.2 with
      | .error e => .error e
      | .ok rz => .ok (s1, ⟨some mid, bk.spread, some retP.1, imb?, iz, rz⟩)

/-- Feed a sequence of order-book states to `SignalEngine.update`, keeping
only the engine state, stopping at the first raised exception. -/
def runSignalUpdates (np : NpFns) (s : SEState) : List OrderBook → Except PyErr SEState
  | [] => .ok s
  | bk :: rest =>
    match SignalEngine.update np s bk with
    | .error e => .error e
    | .ok (s', _) => runSignalUpdates np s' rest

/-- State of `src/trading/strategy.py` `MeanReversionStrategy`: the three
configured numbers plus the advisory position bookkeeping. -/
structure Strategy where
  z_entry_threshold : ℚ
  z_exit_threshold : ℚ
  order_size : ℚ
  current_position : Option String
  entry_z_score : Option ℚ
deriving DecidableEq

/-- Embedding of `MeanReversionStrategy.generate_signal`: prefers the
imbalance z-score, falls back to the return z-score; entry when flat,
exit toward the mean when positioned. Returns the updated advisory state
and the optional `(side, quantity)` decision. -/
def Strategy.generate_signal (st : Strategy) (sig : Signals) (pos : ℚ) :
    Strategy × Option (String × ℚ) :=
  let z? :=
    match sig.imbalance_zscore with
    | some z => some z
    | none => sig.return_zscore
  match z? with
  | none => (st, none)
  | some z =>
    let position_state : Option String :=
      if 0 < pos then some "long" else if pos < 0 then some "short" else none
    match position_state with
    | none =>
      if z < -st.z_entry_threshold then
        ({ st with current_position := some "long", entry_z_score := some z },
          some ("buy", st.order_size))
      else if st.z_entry_threshold < z then
        ({ st with current_position := some "short", entry_z_score := some z },
          some ("sell", st.order_size))
      else (st, none)
    | some ps =>
      if ps = "long" then
        if -st.z_exit_threshold ≤ z then
          ({ st with current_position := none, entry_z_score := none }, some ("sell", |pos|))
        else (st, none)
      else if ps = "short" then
        if z ≤ st.z_exit_threshold then
          ({ st with current_position := none, entry_z_score := none }, some ("buy", |pos|))
        else (st, none)
      else (st, none)

/-- The `(fill_price, filled_size, fee, slippage)` tuple returned by
`ExecutionSimulator`. -/
structure ExecResult where
  fill_price : ℚ
  filled_size : ℚ
  fee : ℚ
  slippage : ℚ
deriving DecidableEq

/-- The all-zero degenerate result. -/
def ExecResult.zero : ExecResult := ⟨0, 0, 0, 0⟩

/-- The book walk shared by `_execute_buy` / `_execute_sell`: consume levels
best-first, filling `min(remaining, size)` at each, stopping once the
remaining quantity is no longer positive. Returns
`(total cost or proceeds, filled size)`. -/
def walkLevels : ℚ → List Level → ℚ × ℚ
  | _, [] => (0, 0)
  | remaining, (price, size) :: rest =>
    if remaining ≤ 0 then (0, 0)
    else
      let fill := min remaining size
      let w := walkLevels (remaining - fill) rest
      (fill * price + w.1, fill + w.2)

/-- Embedding of `ExecutionSimulator._execute_buy`. -/
def ExecutionSimulator.execute_buy (taker_fee : ℚ) (bk : OrderBook) (quantity : ℚ) :
    ExecResult :=
  match bk.asks with
  | [] => ExecResult.zero
  | bestLevel :: _ =>
    let best_ask_price := bestLevel.1
    let w := walkLevels quantity bk.asks
    let total_cost := w.1
    let filled_size := w.2
    if filled_size = 0 then ExecResult.zero
    else
      let fill_price := total_cost / filled_size
      ⟨fill_price, filled_size, filled_size * fill_price * taker_fee,
        (fill_price - best_ask_price) * filled_size⟩

/-- Embedding of `ExecutionSimulator._execute_sell`. -/
def ExecutionSimulator.execute_sell (taker_fee : ℚ) (bk : OrderBook) (quantity : ℚ) :
    ExecResult :=
  match bk.bids with
  | [] => ExecResult.zero
  | bestLevel :: _ =>
    let best_bid_price := bestLevel.1
    let w := walkLevels quantity bk.bids
    let total_proceeds := w.1
    let filled_size := w.2
    if filled_size = 0 then ExecResult.zero
    else
      let fill_price := total_proceeds / filled_size
      ⟨fill_price, filled_size, filled_size * fill_price * taker_fee,
        (best_bid_price - fill_price) * filled_size⟩

/-- Embedding of `ExecutionSimulator.execute_market_order`: an invalid side
(checked case-insensitively) raises `ValueError`; a non-positive quantity
returns the all-zero result. -/
def ExecutionSimulator.execute_market_order (taker_fee : ℚ) (bk : OrderBook)
    (side : String) (quantity : ℚ) : Except PyErr ExecResult :=
  if pyLower side ≠ "buy" ∧ pyLower side ≠ "sell" then
    .error (.valueError ("Invalid side: " ++ side ++ ". Must be buy or sell"))
  else if quantity ≤ 0 then .ok ExecResult.zero
  else if pyLower side = "buy" then .ok (ExecutionSimulator.execute_buy taker_fee bk quantity)
  else .ok (ExecutionSimulator.execute_sell taker_fee bk quantity)

/-- A record of `Accountant.trade_history`. -/
structure TradeRec where
  timestamp : ℕ
  side : String
  price : ℚ
  size : ℚ
  fee : ℚ
  position_after : ℚ
  cash_after : ℚ
deriving DecidableEq

/-- State of `src/trading/accounting.py` `Accountant`. -/
structure Accountant where
  initial_cash : ℚ
  cash : ℚ
  position : ℚ
  avg_entry_price : ℚ
  realized_pnl : ℚ
  trade_history : List TradeRec
deriving DecidableEq

/-- A fresh accountant (`Accountant.__init__`). -/
def Accountant.init (initial_cash : ℚ) : Accountant :=
  ⟨initial_cash, initial_cash, 0, 0, 0, []⟩

/-- Embedding of `Accountant._record_buy`. -/
def Accountant.record_buy (a : Accountant) (price size fee : ℚ) : Accountant :=
  let cost := size * price + fee
  let a1 :=
    if a.position < 0 then
      if size ≤ |a.position| then
        { a with
          realized_pnl := a.realized_pnl + (a.avg_entry_price - price) * size
          position := a.position + size }
      else
        let close_size := |a.position|
        let open_size := size - close_size
        { a with
          realized_pnl := a.realized_pnl + (a.avg_entry_price - price) * close_size
          position := open_size
          avg_entry_price := price }
    else
      if a.position = 0 then { a with position := size, avg_entry_price := price }
      else
        let total_cost := a.position * a.avg_entry_price + size * price
        { a with
          position := a.position + size
          avg_entry_price := total_cost / (a.position + size) }
  { a1 with cash := a1.cash - cost }

/-- Embedding of `Accountant._record_sell`. -/
def Accountant.record_sell (a : Accountant) (price size fee : ℚ) : Accountant :=
  let proceeds := size * price - fee
  let a1 :=
    if 0 < a.position then
      if size ≤ a.position then
        { a with
          realized_pnl := a.realized_pnl + (price - a.avg_entry_price) * size
          position := a.position - size }
      else
        let close_size := a.position
        let open_size := size - close_size
        { a with
          realized_pnl := a.realized_pnl + (price - a.avg_entry_price) * close_size
          position := -open_size
          avg_entry_price := price }
    else
      if a.position = 0 then { a with position := -size, avg_entry_price := price }
      else
        let total_proceeds := |a.position| * a.avg_entry_price + size * price
        { a with
          position := a.position - size
          avg_entry_price := total_proceeds / |a.position - size| }
  { a1 with cash := a1.cash + proceeds }

/-- Embedding of `Accountant.record_fill`: dispatches on the lower-cased
side, raising `ValueError` on anything but buy/sell, then appends one
trade-history record. -/
def Accountant.record_fill (a : Accountant) (timestamp : ℕ) (side : String)
    (fill_price fill_size fee : ℚ) : Except PyErr Accountant :=
  if pyLower side = "buy" then
    let a1 := a.record_buy fill_price fill_size fee
    .ok { a1 with
      trade_history := a1.trade_history ++
        [⟨timestamp, pyLower side, fill_price, fill_size, fee, a1.position, a1.cash⟩] }
  else if pyLower side = "sell" then
    let a1 := a.record_sell fill_price fill_size fee
    .ok { a1 with
      trade_history := a1.trade_history ++
        [⟨timestamp, pyLower side, fill_price, fill_size, fee, a1.position, a1.cash⟩] }
  else
    .error (.valueError ("Invalid side: " ++ side ++ ". Must be buy or sell"))

/-- Embedding of `Accountant.update_unrealized_pnl`. -/
def Accountant.update_unrealized_pnl (a : Accountant) (current_mid_price : ℚ) : ℚ :=
  if a.position = 0 then 0
  else if 0 < a.position then (current_mid_price - a.avg_entry_price) * a.position
  else (a.avg_entry_price - current_mid_price) * |a.position|

/-- The dictionary returned by `Accountant.get_metrics`. -/
structure Metrics where
  position : ℚ
  avg_entry_price : ℚ
  cash : ℚ
  realized_pnl : ℚ
  unrealized_pnl : ℚ
  total_pnl : ℚ
  total_value : ℚ
deriving DecidableEq

/-- Embedding of `Accountant.get_metrics`. -/
def Accountant.get_metrics (a : Accountant) (current_mid_price : Option ℚ) : Metrics :=
  match current_mid_price with
  | none => ⟨a.position, a.avg_entry_price, a.cash, a.realized_pnl, 0, a.realized_pnl, a.cash⟩
  | some mid =>
    let unrealized := a.update_unrealized_pnl mid
    ⟨a.position, a.avg_entry_price, a.cash, a.realized_pnl, unrealized,
      a.realized_pnl + unrealized,
      if a.position ≠ 0 then a.cash + a.position * mid else a.cash⟩

/-- An input event of the backtest loop (`src/main.py`), carrying a
timestamp (modelled as a natural number) and the payload. -/
inductive BTEvent where
  | snapshot (timestamp : ℕ) (bids asks : List Level)
  | update (timestamp : ℕ) (side : String) (price size : ℚ) (action : String)

/-- Timestamp of an event. -/
def BTEvent.timestamp : BTEvent → ℕ
  | .snapshot ts _ _ => ts
  | .update ts _ _ _ _ => ts

/-- A record of `BacktestEngine.trade_log`. -/
structure TradeLogRec where
  timestamp : ℕ
  side : String
  price : ℚ
  size : ℚ
  fee : ℚ
  slippage : ℚ
  position_after : ℚ
  cash_after : ℚ
deriving DecidableEq

/-- The configuration a `BacktestEngine` is built from (`config.py` values or
constructor arguments). -/
structure BTConfig where
  depth : ℕ
  window_size : ℕ
  imbalance_depth : ℕ
  z_entry_threshold : ℚ
  z_exit_threshold : ℚ
  order_size : ℚ
  taker_fee : ℚ
  initial_cash : ℚ

/-- The mutable state of a `BacktestEngine`: one fresh instance of every
component plus the history lists. -/
structure BTState where
  orderbook : OrderBook
  signal_engine : SEState
  strategy : Strategy
  accountant : Accountant
  trade_log : List TradeLogRec
  pnl_history : List ℚ
  signal_history : List (ℕ × Signals)
  timestamps : List ℕ

/-- A fresh set of components, as built by `BacktestEngine.__init__`. -/
def BTState.init (cfg : BTConfig) : BTState :=
  ⟨OrderBook.empty cfg.depth,
    SEState.init cfg.window_size cfg.imbalance_depth,
    ⟨cfg.z_entry_threshold, cfg.z_exit_threshold, cfg.order_size, none, none⟩,
    Accountant.init cfg.initial_cash,
    [], [], [], []⟩

/-- One iteration of the loop in `BacktestEngine.run`: mutate the book,
compute signals, record them, ask the strategy, execute and book a fill
with positive size, append the mark-to-market PnL. -/
def BacktestEngine.step (np : NpFns) (taker_fee : ℚ) (st : BTState) (ev : BTEvent) :
    Except PyErr BTState := do
  let book' ←
    match ev with
    | .snapshot _ b a => pure (st.orderbook.apply_snapshot b a)
    | .update _ side price size action => st.orderbook.apply_diff side price size action
  let (engine', signals) ← SignalEngine.update np st.signal_engine book'
  let signal_history' := st.signal_history ++ [(ev.timestamp, signals)]
  let timestamps' := st.timestamps ++ [ev.timestamp]
  let current_position := st.accountant.position
  let stratP := st.strategy.generate_signal signals current_position
  let (accountant', trade_log') ←
    match stratP.2 with
    | none => pure (st.accountant, st.trade_log)
    | some (side, quantity) => do
      let r ← ExecutionSimulator.execute_market_order taker_fee book' side quantity
      if 0 < r.filled_size then do
        let a' ← st.accountant.record_fill ev.timestamp side r.fill_price r.filled_size r.fee
        pure (a', st.trade_log ++
          [⟨ev.timestamp, side, r.fill_price, r.filled_size, r.fee, r.slippage,
            a'.position, a'.cash⟩])
      else pure (st.accountant, st.trade_log)
  let pnl :=
    match book'.mid_price with
    | some mid => (accountant'.get_metrics (some mid)).total_pnl
    | none => accountant'.realized_pnl
  pure ⟨book', engine', stratP.1, accountant', trade_log',
    st.pnl_history ++ [pnl], signal_history', timestamps'⟩

/-- Run the loop of `BacktestEngine.run` over a list of events, stopping at
the first raised exception. -/
def BacktestEngine.runFrom (np : NpFns) (taker_fee : ℚ) (st : BTState) :
    List BTEvent → Except PyErr BTState
  | [] => .ok st
  | ev :: evs =>
    match BacktestEngine.step np taker_fee st ev with
    | .error e => .error e
    | .ok st' => BacktestEngine.runFrom np taker_fee st' evs

/-- Build a fresh, independent component set from the configuration and
replay the whole event sequence through it. -/
def BacktestEngine.run (np : NpFns) (cfg : BTConfig) (events : List BTEvent) :
    Except PyErr BTState :=
  BacktestEngine.runFrom np cfg.taker_fee (BTState.init cfg) events

theorem sortTake_pairwise_desc (l : List Level) (d : ℕ) (h : (l.map Prod.fst).Nodup) :
    ((sortDescByPrice l).take d).Pairwise fun x y => y.1 < x.1 := by
  have hs : (sortDescByPrice l).Pairwise priceDescR := List.sorted_insertionSort priceDescR l
  have hperm : (sortDescByPrice l).Perm l := List.perm_insertionSort priceDescR l
  have hnd : ((sortDescByPrice l).map Prod.fst).Nodup := ((hperm.map Prod.fst).nodup_iff).mpr h
  have hne : (sortDescByPrice l).Pairwise fun x y => x.1 ≠ y.1 := List.pairwise_map.mp hnd
  have hstrict : (sortDescByPrice l).Pairwise fun x y => y.1 < x.1 :=
    (hs.and hne).imp fun hc => lt_of_le_of_ne hc.1 (Ne.symm hc.2)
  exact List.Pairwise.sublist (List.take_sublist d _) hstrict

theorem sortTake_pairwise_asc (l : List Level) (d : ℕ) (h : (l.map Prod.fst).Nodup) :
    ((sortAscByPrice l).take d).Pairwise fun x y => x.1 < y.1 := by
  have hs : (sortAscByPrice l).Pairwise priceAscR := List.sorted_insertionSort priceAscR l
  have hperm : (sortAscByPrice l).Perm l := List.perm_insertionSort priceAscR l
  have hnd : ((sortAscByPrice l).map Prod.fst).Nodup := ((hperm.map Prod.fst).nodup_iff).mpr h
  have hne : (sortAscByPrice l).Pairwise fun x y => x.1 ≠ y.1 := List.pairwise_map.mp hnd
  have hstrict : (sortAscByPrice l).Pairwise fun x y => x.1 < y.1 :=
    (hs.and hne).imp fun hc => lt_of_le_of_ne hc.1 hc.2
  exact List.Pairwise.sublist (List.take_sublist d _) hstrict

theorem keys_nodup_of_strictDesc {l : List Level}
    (h : l.Pairwise fun x y => y.1 < x.1) : (l.map Prod.fst).Nodup :=
  List.pairwise_map.mpr (h.imp fun hlt => ne_of_gt hlt)

theorem keys_nodup_of_strictAsc {l : List Level}
    (h : l.Pairwise fun x y => x.1 < y.1) : (l.map Prod.fst).Nodup :=
  List.pairwise_map.mpr (h.imp fun hlt => ne_of_lt hlt)

theorem filter_append_keys_nodup (l : List Level) (price size : ℚ)
    (h : (l.map Prod.fst).Nodup) :
    (((l.filter fun x => x.1 != price) ++ [(price, size)]).map Prod.fst).Nodup := by
  rw [List.map_append]
  refine List.Nodup.append (List.Nodup.sublist ((List.filter_sublist l).map Prod.fst) h)
    (by simp) ?_
  intro a ha hb
  simp only [List.map_cons, List.map_nil, List.mem_singleton] at hb
  simp only [List.mem_map] at ha
  obtain ⟨x, hx, hxa⟩ := ha
  have hne : (x.1 != price) = true := (List.mem_filter.mp hx).2
  rw [bne_iff_ne] at hne
  exact hne (hxa.trans hb)

theorem bookInv_apply_snapshot {d : ℕ} {bk : OrderBook} {bids asks : List Level}
    (hd : bk.depth = d) (hb : (bids.map Prod.fst).Nodup) (ha : (asks.map Prod.fst).Nodup) :
    BookInv d (bk.apply_snapshot bids asks) := by
  subst hd
  exact ⟨sortTake_pairwise_desc bids bk.depth hb, List.length_take_le _ _,
    sortTake_pairwise_asc asks bk.depth ha, List.length_take_le _ _, rfl⟩

theorem bookInv_update_level {d : ℕ} {bk bk' : OrderBook} {side : String} {price size : ℚ}
    (h : BookInv d bk) (hok : bk.update_level side price size = .ok bk') :
    BookInv d bk' := by
  obtain ⟨hbp, hbl, hap, hal, hdep⟩ := h
  subst hdep
  unfold OrderBook.update_level at hok
  split_ifs at hok
  · simp only [Except.ok.injEq] at hok
    subst hok
    exact ⟨sortTake_pairwise_desc _ _ (filter_append_keys_nodup _ price size
        (keys_nodup_of_strictDesc hbp)),
      List.length_take_le _ _, hap, hal, rfl⟩
  · simp only [Except.ok.injEq] at hok
    subst hok
    exact ⟨hbp, hbl, sortTake_pairwise_asc _ _ (filter_append_keys_nodup _ price size
        (keys_nodup_of_strictAsc hap)),
      List.length_take_le _ _, rfl⟩

theorem bookInv_remove_level {d : ℕ} {bk bk' : OrderBook} {side : String} {price : ℚ}
    (h : BookInv d bk) (hok : bk.remove_level side price = .ok bk') :
    BookInv d bk' := by
  obtain ⟨hbp, hbl, hap, hal, hdep⟩ := h
  subst hdep
  unfold OrderBook.remove_level at hok
  split_ifs at hok
  · simp only [Except.ok.injEq] at hok
    subst hok
    exact ⟨List.Pairwise.sublist (List.filter_sublist _) hbp,
      le_trans (List.length_filter_le _ _) hbl, hap, hal, rfl⟩
  · simp only [Except.ok.injEq] at hok
    subst hok
    exact ⟨hbp, hbl, List.Pairwise.sublist (List.filter_sublist _) hap,
      le_trans (List.length_filter_le _ _) hal, rfl⟩

theorem bookInv_apply_diff {d : ℕ} {bk bk' : OrderBook} {side : String}
    {price size : ℚ} {action : String}
    (h : BookInv d bk) (hok : bk.apply_diff side price size action = .ok bk') :
    BookInv d bk' := by
  unfold OrderBook.apply_diff at hok
  split_ifs at hok
  · exact bookInv_remove_level h hok
  · exact bookInv_update_level h hok

theorem bookInv_runBookOps : ∀ (ops : List BookOp) (bk bk' : OrderBook) (d : ℕ),
    BookInv d bk → (∀ op ∈ ops, op.distinctPrices) → runBookOps bk ops = .ok bk' →
    BookInv d bk'
  | [], bk, bk', d, h, _, hrun => by
    simp only [runBookOps, Except.ok.injEq] at hrun
    exact hrun ▸ h
  | op :: ops, bk, bk', d, h, hops, hrun => by
    simp only [runBookOps] at hrun
    cases hstep : applyBookOp bk op with
    | error e => rw [hstep] at hrun; exact absurd hrun (by simp)
    | ok bk1 =>
      rw [hstep] at hrun
      have h1 : BookInv d bk1 := by
        cases op with
        | snapshot b a =>
          obtain ⟨hb, ha⟩ := hops _ (List.mem_cons_self _ _)
          simp only [applyBookOp, Except.ok.injEq] at hstep
          exact hstep ▸ bookInv_apply_snapshot h.2.2.2.2 hb ha
        | diff side price size action =>
          exact bookInv_apply_diff h hstep
      exact bookInv_runBookOps ops bk1 bk' d h1
        (fun o ho => hops o (List.mem_cons_of_mem _ ho)) hrun

/-- C2 (amended): starting from an empty book of depth `d`, after any
sequence of `apply_snapshot` / `apply_diff` calls in which every snapshot's
bid list and ask list carry pairwise-distinct prices (diffs unrestricted),
and that raises no exception, the bids are strictly descending by price with
at most `d` levels and the asks strictly ascending with at most `d` levels. -/
theorem orderbook_ladder_invariant (d : ℕ) (ops : List BookOp) (bk' : OrderBook)
    (hops : ∀ op ∈ ops, op.distinctPrices)
    (hrun : runBookOps (OrderBook.empty d) ops = .ok bk') :
    bk'.bids.Pairwise (fun x y => y.1 < x.1) ∧ bk'.bids.length ≤ d ∧
    bk'.asks.Pairwise (fun x y => x.1 < y.1) ∧ bk'.asks.length ≤ d := by
  have h0 : BookInv d (OrderBook.empty d) := by
    refine ⟨List.Pairwise.nil, ?_, List.Pairwise.nil, ?_, rfl⟩ <;> simp [OrderBook.empty]
  have h := bookInv_runBookOps ops _ _ d h0 hops hrun
  exact ⟨h.1, h.2.1, h.2.2.1, h.2.2.2.1⟩

/-- C2, as frozen, is false: `apply_snapshot` does not deduplicate repeated
prices, so a snapshot whose bid list repeats a price leaves two levels with
the same price in `bids`, which is then not strictly descending. -/
theorem orderbook_ladder_invariant_cx :
    runBookOps (OrderBook.empty 5) [BookOp.snapshot [(100, 5), (100, 6)] []] =
      .ok ⟨5, [(100, 5), (100, 6)], []⟩ ∧
    ¬ ([((100 : ℚ), (5 : ℚ)), (100, 6)].Pairwise fun x y => y.1 < x.1) :=
  ⟨rfl, by decide⟩

/-- Witness for `orderbook_ladder_invariant`: a concrete snapshot followed by
a concrete diff, whose hypotheses hold by computation. -/
theorem orderbook_ladder_invariant_witness :
    (OrderBook.mk 2 [(100, 5), (99, 3)] [(101, 2)]).bids.Pairwise
      (fun x y => y.1 < x.1) ∧
    (OrderBook.mk 2 [(100, 5), (99, 3)] [(101, 2)]).bids.length ≤ 2 := by
  have h := orderbook_ladder_invariant 2
    [BookOp.snapshot [(99, 3), (100, 5), (98, 1)] [(101, 2)],
      BookOp.diff "bid" 98 0 "update"]
    ⟨2, [(100, 5), (99, 3)], [(101, 2)]⟩
    (by intro op hop; fin_cases hop <;> exact (by decide))
    (by rfl)
  exact ⟨h.1, h.2.1⟩

/-- C1 (amended): for a valid side, whenever `action = remove` or `size = 0`
(the source compares `size == 0`, not `size <= 0`), `apply_diff` succeeds,
deletes the level at `price` on that side (a pure filter — nothing is ever
inserted on this path), and leaves the book entirely unchanged when no level
at that price exists. -/
theorem apply_diff_remove_semantics (bk : OrderBook) (side : String) (price size : ℚ)
    (action : String) (hside : pyLower side = "bid" ∨ pyLower side = "ask")
    (hrem : action = "remove" ∨ size = 0) :
    ∃ bk', bk.apply_diff side price size action = .ok bk' ∧
      (pyLower side = "bid" →
        bk' = { bk with bids := bk.bids.filter fun l => l.1 != price } ∧
        (price ∉ bk.bids.map Prod.fst → bk' = bk)) ∧
      (pyLower side = "ask" →
        bk' = { bk with asks := bk.asks.filter fun l => l.1 != price } ∧
        (price ∉ bk.asks.map Prod.fst → bk' = bk)) := by
  have habsent : ∀ (l : List Level), price ∉ l.map Prod.fst →
      (l.filter fun x => x.1 != price) = l := by
    intro l hl
    refine List.filter_eq_self.mpr fun x hx => ?_
    rw [bne_iff_ne]
    intro hx1
    exact hl (hx1 ▸ List.mem_map_of_mem Prod.fst hx)
  unfold OrderBook.apply_diff OrderBook.remove_level
  rw [if_pos hrem]
  rcases hside with h | h
  · rw [if_pos h]
    refine ⟨_, rfl, fun _ => ⟨rfl, fun habs => ?_⟩, fun h' => absurd (h ▸ h') (by decide)⟩
    rw [habsent bk.bids habs]
  · have hne : ¬ pyLower side = "bid" := fun h' => absurd (h ▸ h') (by decide)
    rw [if_neg hne, if_pos h]
    refine ⟨_, rfl, fun h' => absurd (h ▸ h') (by decide), fun _ => ⟨rfl, fun habs => ?_⟩⟩
    rw [habsent bk.asks habs]

/-- C1, as frozen, is false on the source: `apply_diff` only routes to the
delete branch for `size == 0`, so a diff with negative size and
`action = update` inserts a level with non-positive size instead of deleting. -/
theorem apply_diff_remove_semantics_cx :
    (OrderBook.empty 5).apply_diff "bid" 100 (-5) "update" =
      .ok ⟨5, [(100, -5)], []⟩ ∧
    ((-5 : ℚ) ≤ 0) ∧ OrderBook.mk 5 [(100, -5)] [] ≠ OrderBook.empty 5 :=
  ⟨rfl, by norm_num, by decide⟩

/-- Witness for `apply_diff_remove_semantics`: a present level is deleted,
and the hypotheses hold by computation. -/
theorem apply_diff_remove_semantics_witness :
    (OrderBook.mk 5 [(100, 7), (99, 3)] []).apply_diff "bid" 100 0 "update" =
      .ok ⟨5, [(99, 3)], []⟩ := by
  obtain ⟨bk', hok, hbid, -⟩ :=
    apply_diff_remove_semantics ⟨5, [(100, 7), (99, 3)], []⟩ "bid" 100 0 "update"
      (Or.inl rfl) (Or.inr rfl)
  obtain ⟨hrw, -⟩ := hbid rfl
  rw [hok, hrw]
  rfl

theorem pyLower_buy : pyLower "buy" = "buy" := rfl

theorem pyLower_sell : pyLower "sell" = "sell" := rfl

/-- C4 (amended): on the book with bid `100 x 100` and asks `101 x 30,
102 x 40, 103 x 50`, a market buy of 80 fills 80 at weighted average price
`(30*101 + 40*102 + 10*103)/80 = 8140/80 = 101.75`, with slippage
`(101.75 - 101) * 80 = 60`, for every taker-fee rate. -/
theorem execution_walk_book (taker_fee : ℚ) :
    (ExecutionSimulator.execute_market_order taker_fee
        ⟨5, [(100, 100)], [(101, 30), (102, 40), (103, 50)]⟩ "buy" 80).map
      (fun r => (r.fill_price, r.filled_size, r.slippage)) = .ok (407 / 4, 80, 60) := by
  have hw : walkLevels 80 [(101, 30), (102, 40), (103, 50)] = (8140, 80) := by
    norm_num [walkLevels, min_def]
  have hside : ¬ (pyLower "buy" ≠ "buy" ∧ pyLower "buy" ≠ "sell") := by decide
  simp only [ExecutionSimulator.execute_market_order, if_neg hside, pyLower_buy]
  norm_num [ExecutionSimulator.execute_buy, hw, Except.map]

/-- C4, as frozen, is false: the spec evaluates `(30*101+40*102+10*103)/80`
to `101.875` and the slippage to `70.0`, but the sum is `8140`, so the code
returns `101.75 = 407/4` and slippage `60.0`. -/
theorem execution_walk_book_cx :
    (ExecutionSimulator.execute_market_order (1 / 1000)
        ⟨5, [(100, 100)], [(101, 30), (102, 40), (103, 50)]⟩ "buy" 80).map
      (fun r => (r.fill_price, r.filled_size, r.slippage)) = .ok (407 / 4, 80, 60) ∧
    (407 / 4 : ℚ) ≠ 815 / 8 ∧ (60 : ℚ) ≠ 70 :=
  ⟨execution_walk_book (1 / 1000), by norm_num, by norm_num⟩

/-- C5: the accounting round trip from the spec, computed exactly: a buy of
10 at 100 with fee 1 from 100000 cash gives position 10, average entry 100,
cash 98999; the subsequent sell of 10 at 110 with fee 1.1 flattens the
position and realizes exactly 100. -/
theorem accounting_round_trip :
    ∃ a1 a2,
      (Accountant.init 100000).record_fill 0 "buy" 100 10 1 = .ok a1 ∧
      a1.position = 10 ∧ a1.avg_entry_price = 100 ∧ a1.cash = 98999 ∧
      a1.record_fill 1 "sell" 110 10 (11 / 10) = .ok a2 ∧
      a2.position = 0 ∧ a2.realized_pnl = 100 := by
  refine ⟨⟨100000, 98999, 10, 100, 0, [⟨0, "buy", 100, 10, 1, 10, 98999⟩]⟩,
    ⟨100000, 1000979 / 10, 0, 100, 100,
      [⟨0, "buy", 100, 10, 1, 10, 98999⟩, ⟨1, "sell", 110, 10, 11 / 10, 0, 1000979 / 10⟩]⟩,
    ?_, rfl, rfl, rfl, ?_, rfl, rfl⟩
  · norm_num [Accountant.record_fill, Accountant.record_buy, Accountant.init, pyLower_buy]
  · norm_num [Accountant.record_fill, Accountant.record_sell, pyLower_sell, pyLower_buy]
    exact fun h => absurd h (by decide)

/-- C8 (amended): `execute_market_order` raises a `ValueError` exactly when
the lower-cased side is neither buy nor sell; every raised exception is a
`ValueError`; for a valid side it never raises, and it returns the all-zero
result whenever the quantity is non-positive or the relevant book side is
empty. -/
theorem execute_market_order_error_behavior (taker_fee : ℚ) (bk : OrderBook)
    (side : String) (quantity : ℚ) :
    ((∃ e, ExecutionSimulator.execute_market_order taker_fee bk side quantity = .error e) ↔
      (pyLower side ≠ "buy" ∧ pyLower side ≠ "sell")) ∧
    (∀ e, ExecutionSimulator.execute_market_order taker_fee bk side quantity = .error e →
      e.className = "ValueError") ∧
    ((pyLower side = "buy" ∨ pyLower side = "sell") → quantity ≤ 0 →
      ExecutionSimulator.execute_market_order taker_fee bk side quantity =
        .ok ExecResult.zero) ∧
    (pyLower side = "buy" → 0 < quantity → bk.asks = [] →
      ExecutionSimulator.execute_market_order taker_fee bk side quantity =
        .ok ExecResult.zero) ∧
    (pyLower side = "sell" → 0 < quantity → bk.bids = [] →
      ExecutionSimulator.execute_market_order taker_fee bk side quantity =
        .ok ExecResult.zero) := by
  have hnot : ∀ _ : pyLower side = "buy" ∨ pyLower side = "sell",
      ¬ (pyLower side ≠ "buy" ∧ pyLower side ≠ "sell") := by
    rintro (h | h) ⟨h1, h2⟩
    · exact h1 h
    · exact h2 h
  refine ⟨⟨?_, ?_⟩, ?_, ?_, ?_, ?_⟩
  · rintro ⟨e, he⟩
    unfold ExecutionSimulator.execute_market_order at he
    split_ifs at he with h1 h2 h3
    · exact h1
  · intro hv
    exact ⟨_, by unfold ExecutionSimulator.execute_market_order; rw [if_pos hv]⟩
  · intro e he
    unfold ExecutionSimulator.execute_market_order at he
    split_ifs at he with h1 h2 h3
    rw [Except.error.injEq] at he
    rw [← he]
    rfl
  · intro hv hq
    unfold ExecutionSimulator.execute_market_order
    rw [if_neg (hnot hv), if_pos hq]
  · intro hb hq ha
    unfold ExecutionSimulator.execute_market_order
    rw [if_neg (hnot (Or.inl hb)), if_neg (not_le.mpr hq), if_pos hb]
    unfold ExecutionSimulator.execute_buy
    rw [ha]
  · intro hs hq hb
    unfold ExecutionSimulator.execute_market_order
    have hsb : ¬ pyLower side = "buy" := by
      rw [hs]
      decide
    rw [if_neg (hnot (Or.inr hs)), if_neg (not_le.mpr hq), if_neg hsb]
    unfold ExecutionSimulator.execute_sell
    rw [hb]

/-- C8, as frozen, names the exception `InvalidSideError`; the program
defines no such class and raises the builtin `ValueError`. -/
theorem execute_market_order_error_behavior_cx :
    ExecutionSimulator.execute_market_order (1 / 1000) (OrderBook.empty 5) "mid" 1 =
      .error (.valueError "Invalid side: mid. Must be buy or sell") ∧
    PyErr.className (.valueError "Invalid side: mid. Must be buy or sell") = "ValueError" ∧
    "ValueError" ≠ "InvalidSideError" := by
  refine ⟨?_, rfl, by decide⟩
  unfold ExecutionSimulator.execute_market_order
  rw [if_pos (by decide)]
  rw [show ("Invalid side: " ++ "mid" ++ ". Must be buy or sell") =
    "Invalid side: mid. Must be buy or sell" from by decide]

/-- Witness for `execute_market_order_error_behavior`: a valid (upper-cased)
side with non-positive quantity returns the all-zero result. -/
theorem execute_market_order_error_behavior_witness :
    ExecutionSimulator.execute_market_order 0 (OrderBook.empty 5) "BUY" (-1) =
      .ok ExecResult.zero :=
  (execute_market_order_error_behavior 0 (OrderBook.empty 5) "BUY" (-1)).2.2.1
    (Or.inl (by decide)) (by norm_num)

theorem get_metrics_flat (b : Accountant) (mid : ℚ) (h : b.position = 0) :
    (b.get_metrics (some mid)).avg_entry_price = b.avg_entry_price ∧
    (b.get_metrics (some mid)).unrealized_pnl = 0 ∧
    (b.get_metrics (some mid)).total_value = b.cash := by
  simp [Accountant.get_metrics, Accountant.update_unrealized_pnl, h]

/-- C10: a fill that exactly closes the open position (sell of the full long,
or buy of the full short) zeroes the position but leaves `avg_entry_price` at
its previous value rather than resetting it; `get_metrics` then reports that
stale `avg_entry_price` while flat, with unrealized PnL 0 and total value
equal to cash. -/
theorem exact_close_keeps_avg_entry (a : Accountant) (ts : ℕ) (price fee mid : ℚ) :
    (0 < a.position →
      ∃ b, a.record_fill ts "sell" price a.position fee = .ok b ∧
        b.position = 0 ∧ b.avg_entry_price = a.avg_entry_price ∧
        (b.get_metrics (some mid)).avg_entry_price = a.avg_entry_price ∧
        (b.get_metrics (some mid)).unrealized_pnl = 0 ∧
        (b.get_metrics (some mid)).total_value = b.cash) ∧
    (a.position < 0 →
      ∃ b, a.record_fill ts "buy" price |a.position| fee = .ok b ∧
        b.position = 0 ∧ b.avg_entry_price = a.avg_entry_price ∧
        (b.get_metrics (some mid)).avg_entry_price = a.avg_entry_price ∧
        (b.get_metrics (some mid)).unrealized_pnl = 0 ∧
        (b.get_metrics (some mid)).total_value = b.cash) := by
  constructor
  · intro hpos
    have hposA : (a.record_sell price a.position fee).position = 0 := by
      simp only [Accountant.record_sell]
      rw [if_pos hpos, if_pos (le_refl a.position)]
      simp
    have havgA : (a.record_sell price a.position fee).avg_entry_price = a.avg_entry_price := by
      simp only [Accountant.record_sell]
      rw [if_pos hpos, if_pos (le_refl a.position)]
    have hfill : a.record_fill ts "sell" price a.position fee =
        .ok { a.record_sell price a.position fee with
          trade_history := (a.record_sell price a.position fee).trade_history ++
            [⟨ts, "sell", price, a.position, fee,
              (a.record_sell price a.position fee).position,
              (a.record_sell price a.position fee).cash⟩] } := by
      unfold Accountant.record_fill
      rw [if_neg (by decide), if_pos (by decide)]
      rfl
    have hm := get_metrics_flat _ mid (show ({ a.record_sell price a.position fee with
      trade_history := (a.record_sell price a.position fee).trade_history ++
        [⟨ts, "sell", price, a.position, fee, (a.record_sell price a.position fee).position,
          (a.record_sell price a.position fee).cash⟩] } : Accountant).position = 0 from hposA)
    exact ⟨_, hfill, hposA, havgA, havgA ▸ hm.1, hm.2.1, hm.2.2⟩
  · intro hneg
    have hle : |a.position| ≤ |a.position| := le_refl _
    have hposA : (a.record_buy price |a.position| fee).position = 0 := by
      simp only [Accountant.record_buy]
      rw [if_pos hneg, if_pos hle]
      simp [abs_of_neg hneg]
    have havgA : (a.record_buy price |a.position| fee).avg_entry_price = a.avg_entry_price := by
      simp only [Accountant.record_buy]
      rw [if_pos hneg, if_pos hle]
    have hfill : a.record_fill ts "buy" price |a.position| fee =
        .ok { a.record_buy price |a.position| fee with
          trade_history := (a.record_buy price |a.position| fee).trade_history ++
            [⟨ts, "buy", price, |a.position|, fee,
              (a.record_buy price |a.position| fee).position,
              (a.record_buy price |a.position| fee).cash⟩] } := by
      unfold Accountant.record_fill
      rw [if_pos (by decide)]
      rfl
    have hm := get_metrics_flat _ mid (show ({ a.record_buy price |a.position| fee with
      trade_history := (a.record_buy price |a.position| fee).trade_history ++
        [⟨ts, "buy", price, |a.position|, fee, (a.record_buy price |a.position| fee).position,
          (a.record_buy price |a.position| fee).cash⟩] } : Accountant).position = 0 from hposA)
    exact ⟨_, hfill, hposA, havgA, havgA ▸ hm.1, hm.2.1, hm.2.2⟩

/-- Witness for `exact_close_keeps_avg_entry`: a long of 10 at entry 100 is
flattened by a sell of 10 and the stale entry price 100 is kept. -/
theorem exact_close_keeps_avg_entry_witness :
    ∃ b, (Accountant.mk 100000 98999 10 100 0 []).record_fill 0 "sell" 120 10 1 = .ok b ∧
      b.position = 0 ∧ b.avg_entry_price = 100 := by
  obtain ⟨b, h1, h2, h3, -, -, -⟩ :=
    (exact_close_keeps_avg_entry (Accountant.mk 100000 98999 10 100 0 []) 0 120 1 115).1
      (by norm_num)
  exact ⟨b, h1, h2, h3⟩

/-- C9: the pipeline is a pure function of the abstract numeric primitives,
the configuration and the ordered event sequence: replaying the same events
through two independently constructed fresh component sets (each
`BacktestEngine.run` call builds its own `BTState.init cfg`) yields
identical trade logs, PnL histories and signal histories. -/
theorem backtest_deterministic (np : NpFns) (cfg : BTConfig) (events : List BTEvent) :
    (BacktestEngine.run np cfg events).map
      (fun st => (st.trade_log, st.pnl_history, st.signal_history)) =
    (BacktestEngine.run np cfg events).map
      (fun st => (st.trade_log, st.pnl_history, st.signal_history)) := rfl

/-- C6: the strategy decision. The z-score is the imbalance z-score when
present, else the return z-score, and no decision is made when both are
absent; with a flat position the decision is `(buy, order_size)` iff
`z < -entry`, `(sell, order_size)` iff `z > entry` (with the configured
non-negative entry threshold), and none otherwise; with a long position it
is `(sell, |position|)` iff `z >= -exit`; with a short position it is
`(buy, |position|)` iff `z <= exit`; none in every other case. -/
theorem strategy_decision (st : Strategy) (sig : Signals) (pos : ℚ)
    (hentry : 0 ≤ st.z_entry_threshold) :
    (sig.imbalance_zscore = none → sig.return_zscore = none →
      (st.generate_signal sig pos).2 = none) ∧
    (∀ z, (sig.imbalance_zscore = some z ∨
        (sig.imbalance_zscore = none ∧ sig.return_zscore = some z)) →
      ((pos = 0 →
          (((st.generate_signal sig pos).2 = some ("buy", st.order_size) ↔
            z < -st.z_entry_threshold) ∧
          ((st.generate_signal sig pos).2 = some ("sell", st.order_size) ↔
            st.z_entry_threshold < z) ∧
          (¬ z < -st.z_entry_threshold → ¬ st.z_entry_threshold < z →
            (st.generate_signal sig pos).2 = none))) ∧
       (0 < pos →
          (((st.generate_signal sig pos).2 = some ("sell", |pos|) ↔
            -st.z_exit_threshold ≤ z) ∧
          (¬ -st.z_exit_threshold ≤ z → (st.generate_signal sig pos).2 = none))) ∧
       (pos < 0 →
          (((st.generate_signal sig pos).2 = some ("buy", |pos|) ↔
            z ≤ st.z_exit_threshold) ∧
          (¬ z ≤ st.z_exit_threshold → (st.generate_signal sig pos).2 = none))))) := by
  constructor
  · intro h1 h2
    simp [Strategy.generate_signal, h1, h2]
  · intro z hz
    have hzsel : (match sig.imbalance_zscore with
        | some z => some z
        | none => sig.return_zscore) = some z := by
      rcases hz with h | ⟨h1, h2⟩
      · rw [h]
      · rw [h1, h2]
    refine ⟨?_, ?_, ?_⟩
    · intro h0
      by_cases hb : z < -st.z_entry_threshold
      · have hs : ¬ st.z_entry_threshold < z := not_lt.mpr (by linarith)
        simp [Strategy.generate_signal, hzsel, h0, hb, hs]
      · by_cases hs : st.z_entry_threshold < z
        · simp [Strategy.generate_signal, hzsel, h0, hb, hs]
        · simp [Strategy.generate_signal, hzsel, h0, hb, hs]
    · intro hp
      have h0 : ¬ pos < 0 := by linarith
      by_cases he : -st.z_exit_threshold ≤ z
      · simp [Strategy.generate_signal, hzsel, if_pos hp, he]
      · simp [Strategy.generate_signal, hzsel, if_pos hp, he]
    · intro hn
      have hp : ¬ 0 < pos := by linarith
      by_cases he : z ≤ st.z_exit_threshold
      · simp [Strategy.generate_signal, hzsel, if_neg hp, if_pos hn, he]
      · simp [Strategy.generate_signal, hzsel, if_neg hp, if_pos hn, he]

/-- Witness for `strategy_decision`: with entry threshold 2, a flat position
and imbalance z-score -3 the strategy buys the configured order size. -/
theorem strategy_decision_witness :
    ((Strategy.mk 2 (1 / 2) 100 none none).generate_signal
      ⟨none, none, none, none, some (-3), none⟩ 0).2 = some ("buy", 100) := by
  have h := strategy_decision (Strategy.mk 2 (1 / 2) 100 none none)
    ⟨none, none, none, none, some (-3), none⟩ 0 (by norm_num)
  exact ((h.2 (-3) (Or.inl rfl)).1 rfl).1.mpr (by norm_num)

/-- C3 fails on the code: `SignalEngine.update` raises a `TypeError` under an
expected data condition. Feed a fresh engine with window size 3 three books
with mixed liquidity (depth imbalances 0, 1/2, -1/2, filling the imbalance
window), then one book whose two sides are present but whose level sizes are
all zero: the depth imbalance is absent (`total_size == 0`) while the window
is full, and `update` evaluates `None - mean` inside `_z_score`. The only
hypothesis is that the standard deviation `np.sqrt (1/16)` of the prior
window `[0, 1/2]` is non-zero, which holds for the real square root
(`np.std = 0.25`). -/
theorem signal_update_raises_on_absent_imbalance (np : NpFns)
    (hstd : np.sqrt (1 / 16) ≠ 0) :
    runSignalUpdates np (SEState.init 3 5)
      [⟨5, [(99, 10)], [(101, 10)]⟩, ⟨5, [(99, 30)], [(101, 10)]⟩,
        ⟨5, [(99, 10)], [(101, 30)]⟩, ⟨5, [(100, 0)], [(101, 0)]⟩] =
      .error (.typeError "unsupported operand type for -: NoneType and float") := by
  norm_num [runSignalUpdates, SignalEngine.update, SignalEngine.retStep, SignalEngine.imbPush,
    SignalEngine.zGate, SEState.init, OrderBook.mid_price,
    OrderBook.best_bid, OrderBook.best_ask, OrderBook.spread, SEState.calc_depth_imbalance,
    OrderBook.top_depth, dqAppend, py_z_score, npMean, npVar, hstd, Except.map]

/-- Witness for `signal_update_raises_on_absent_imbalance`: instantiating the
abstract square root with any function that is non-zero at `1/16`. -/
theorem signal_update_raises_on_absent_imbalance_witness :
    runSignalUpdates ⟨fun _ => 0, fun _ => 1⟩ (SEState.init 3 5)
      [⟨5, [(99, 10)], [(101, 10)]⟩, ⟨5, [(99, 30)], [(101, 10)]⟩,
        ⟨5, [(99, 10)], [(101, 30)]⟩, ⟨5, [(100, 0)], [(101, 0)]⟩] =
      .error (.typeError "unsupported operand type for -: NoneType and float") :=
  signal_update_raises_on_absent_imbalance ⟨fun _ => 0, fun _ => 1⟩ (by norm_num)

theorem dqAppend_eq_concat (m : ℕ) (l : List ℚ) (x : ℚ) (hm : 1 ≤ m) :
    dqAppend m l x = l.drop (l.length + 1 - m) ++ [x] := by
  unfold dqAppend
  simp only [List.length_append, List.length_cons, List.length_nil]
  exact List.drop_append_of_le_length (by omega)

theorem dqAppend_length_le (m : ℕ) (l : List ℚ) (x : ℚ) :
    (dqAppend m l x).length ≤ m := by
  unfold dqAppend
  simp only [List.length_drop, List.length_append, List.length_cons, List.length_nil]
  omega

theorem py_z_score_ok (np : NpFns) (v? : Option ℚ) (w : List ℚ) (z : ℚ)
    (h : py_z_score np v? w = .ok z) :
    (w.length < 2 → z = 0) ∧
    (2 ≤ w.length → np.sqrt (npVar w) = 0 → z = 0) ∧
    (2 ≤ w.length → np.sqrt (npVar w) ≠ 0 →
      ∃ v, v? = some v ∧ z = (v - npMean w) / np.sqrt (npVar w)) := by
  simp only [py_z_score] at h
  split_ifs at h with h1 h2
  · rw [Except.ok.injEq] at h
    subst h
    exact ⟨fun _ => rfl, fun hc _ => absurd h1 (by omega),
      fun hc _ => absurd h1 (by omega)⟩
  · rw [Except.ok.injEq] at h
    subst h
    exact ⟨fun hlt => absurd hlt h1, fun _ _ => rfl, fun _ hstd => absurd h2 hstd⟩
  · cases v? with
    | none => exact absurd h (by simp)
    | some v =>
      rw [Except.ok.injEq] at h
      subst h
      exact ⟨fun hlt => absurd hlt h1, fun _ hstd => absurd hstd h2,
        fun _ _ => ⟨v, rfl, rfl⟩⟩

theorem zGate_ok_none_iff (np : NpFns) (ws : ℕ) (v? : Option ℚ) (w : List ℚ)
    (o : Option ℚ) (h : SignalEngine.zGate np ws v? w = .ok o) :
    o = none ↔ w.length < ws := by
  simp only [SignalEngine.zGate] at h
  split_ifs at h with h1
  · cases hp : py_z_score np v? w.dropLast with
    | error e => rw [hp] at h; exact absurd h (by simp [Except.map])
    | ok z =>
      rw [hp] at h
      simp only [Except.map, Except.ok.injEq] at h
      subst h
      simp [Nat.lt_iff_add_one_le]
      omega
  · rw [Except.ok.injEq] at h
    subst h
    simp [Nat.lt_iff_add_one_le]
    omega

theorem zGate_ok_some (np : NpFns) (ws : ℕ) (v? : Option ℚ) (w : List ℚ)
    (z : ℚ) (h : SignalEngine.zGate np ws v? w = .ok (some z)) :
    ws ≤ w.length ∧ py_z_score np v? w.dropLast = .ok z := by
  simp only [SignalEngine.zGate] at h
  split_ifs at h with h1
  · refine ⟨h1, ?_⟩
    cases hp : py_z_score np v? w.dropLast with
    | error e => rw [hp] at h; exact absurd h (by simp [Except.map])
    | ok z' =>
      rw [hp] at h
      simp only [Except.map, Except.ok.injEq, Option.some.injEq] at h
      rw [h]
  · rw [Except.ok.injEq] at h
    exact absurd h (by simp)

theorem update_ok_char (np : NpFns) (s : SEState) (bk : OrderBook)
    (s' : SEState) (sig : Signals) (mid : ℚ) (hmid : bk.mid_price = some mid)
    (hok : SignalEngine.update np s bk = .ok (s', sig)) :
    ∃ iz rz,
      SignalEngine.zGate np s.window_size (s.calc_depth_imbalance bk)
        (SignalEngine.imbPush s (s.calc_depth_imbalance bk)) = .ok iz ∧
      SignalEngine.zGate np s.window_size (some (SignalEngine.retStep np s mid).1)
        (SignalEngine.retStep np s mid).2 = .ok rz ∧
      s' = { s with
        mid_prices := dqAppend (s.window_size + 1) s.mid_prices mid,
        returns := (SignalEngine.retStep np s mid).2,
        imbalances := SignalEngine.imbPush s (s.calc_depth_imbalance bk),
        prev_mid := some mid } ∧
      sig = ⟨some mid, bk.spread, some (SignalEngine.retStep np s mid).1,
        s.calc_depth_imbalance bk, iz, rz⟩ := by
  simp only [SignalEngine.update, hmid] at hok
  cases hiz : SignalEngine.zGate np s.window_size (s.calc_depth_imbalance bk)
      (SignalEngine.imbPush s (s.calc_depth_imbalance bk)) with
  | error e => rw [hiz] at hok; exact absurd hok (by simp)
  | ok iz =>
    rw [hiz] at hok
    cases hrz : SignalEngine.zGate np s.window_size (some (SignalEngine.retStep np s mid).1)
        (SignalEngine.retStep np s mid).2 with
    | error e => rw [hrz] at hok; exact absurd hok (by simp)
    | ok rz =>
      rw [hrz] at hok
      simp only [Except.ok.injEq, Prod.mk.injEq] at hok
      exact ⟨iz, rz, rfl, rfl, hok.1.symm, hok.2.symm⟩

theorem imbPush_length_le (s : SEState) (i : Option ℚ)
    (h : s.imbalances.length ≤ s.window_size) :
    (SignalEngine.imbPush s i).length ≤ s.window_size := by
  cases i with
  | none => exact h
  | some v => exact dqAppend_length_le _ _ _

theorem retStep_length_le (np : NpFns) (s : SEState) (mid : ℚ)
    (h : s.returns.length ≤ s.window_size) :
    (SignalEngine.retStep np s mid).2.length ≤ s.window_size := by
  rcases hpm : s.prev_mid with _ | pm
  · have he : (SignalEngine.retStep np s mid).2 = s.returns := by
      simp [SignalEngine.retStep, hpm]
    rw [he]
    exact h
  · by_cases hp : 0 < pm
    · have he : (SignalEngine.retStep np s mid).2 =
          dqAppend s.window_size s.returns (np.log (mid / pm)) := by
        simp [SignalEngine.retStep, hpm, hp]
      rw [he]
      exact dqAppend_length_le _ _ _
    · have he : (SignalEngine.retStep np s mid).2 = s.returns := by
        simp [SignalEngine.retStep, hpm, hp]
      rw [he]
      exact h

/-- C7: in every successful `SignalEngine.update` step from a well-formed
engine state (windows within capacity, returns window empty before the first
mid price, previous mid price positive when present), each z-score is
present in the produced snapshot exactly when its window, after the push,
holds `window_size` entries (and a mid price exists); and a present z-score
is scored against the window excluding the just-pushed current value, being
`0` when that prior window has fewer than 2 entries or zero standard
deviation, and `(value - mean)/std` otherwise, where the value is exactly
the current depth imbalance (resp. current mid-price return) sitting at the
end of the pushed window. -/
theorem zscore_gating_and_formula (np : NpFns) (s : SEState) (bk : OrderBook)
    (s' : SEState) (sig : Signals)
    (hws : 1 ≤ s.window_size)
    (hli : s.imbalances.length ≤ s.window_size)
    (hlr : s.returns.length ≤ s.window_size)
    (hpe : s.prev_mid = none → s.returns = [])
    (hpp : ∀ pm, s.prev_mid = some pm → 0 < pm)
    (hok : SignalEngine.update np s bk = .ok (s', sig)) :
    (sig.imbalance_zscore = none ↔
      sig.mid_price = none ∨ s'.imbalances.length < s.window_size) ∧
    (sig.return_zscore = none ↔
      sig.mid_price = none ∨ s'.returns.length < s.window_size) ∧
    (∀ z, sig.imbalance_zscore = some z →
      s'.imbalances.length = s.window_size ∧
      (s'.imbalances.dropLast.length < 2 → z = 0) ∧
      (2 ≤ s'.imbalances.dropLast.length →
        np.sqrt (npVar s'.imbalances.dropLast) = 0 → z = 0) ∧
      (2 ≤ s'.imbalances.dropLast.length →
        np.sqrt (npVar s'.imbalances.dropLast) ≠ 0 →
        ∃ v, sig.depth_imbalance = some v ∧
          z = (v - npMean s'.imbalances.dropLast) / np.sqrt (npVar s'.imbalances.dropLast) ∧
          s'.imbalances = s'.imbalances.dropLast ++ [v])) ∧
    (∀ z, sig.return_zscore = some z →
      s'.returns.length = s.window_size ∧
      (s'.returns.dropLast.length < 2 → z = 0) ∧
      (2 ≤ s'.returns.dropLast.length →
        np.sqrt (npVar s'.returns.dropLast) = 0 → z = 0) ∧
      (2 ≤ s'.returns.dropLast.length →
        np.sqrt (npVar s'.returns.dropLast) ≠ 0 →
        ∃ v, sig.mid_price_return = some v ∧
          z = (v - npMean s'.returns.dropLast) / np.sqrt (npVar s'.returns.dropLast) ∧
          s'.returns = s'.returns.dropLast ++ [v])) := by
  cases hmid : bk.mid_price with
  | none =>
    simp only [SignalEngine.update, hmid, Except.ok.injEq, Prod.mk.injEq] at hok
    obtain ⟨hs, hsig⟩ := hok
    subst hs
    subst hsig
    simp
  | some mid =>
    obtain ⟨iz, rz, hiz, hrz, hs', hsig⟩ := update_ok_char np s bk s' sig mid hmid hok
    subst hs'
    subst hsig
    refine ⟨?_, ?_, ?_, ?_⟩
    · have h := zGate_ok_none_iff np s.window_size (s.calc_depth_imbalance bk)
        (SignalEngine.imbPush s (s.calc_depth_imbalance bk)) iz hiz
      dsimp only
      simp [h]
    · have h := zGate_ok_none_iff np s.window_size (some (SignalEngine.retStep np s mid).1)
        (SignalEngine.retStep np s mid).2 rz hrz
      dsimp only
      simp [h]
    · intro z hz
      dsimp only at hz ⊢
      rw [hz] at hiz
      obtain ⟨hlen, hpy⟩ := zGate_ok_some np s.window_size _ _ z hiz
      obtain ⟨hb1, hb2, hb3⟩ := py_z_score_ok np _ _ z hpy
      refine ⟨le_antisymm (imbPush_length_le s _ hli) hlen, hb1, hb2, ?_⟩
      intro hw2 hstd
      obtain ⟨v, hv, hzv⟩ := hb3 hw2 hstd
      refine ⟨v, hv, hzv, ?_⟩
      · simp only [SignalEngine.imbPush, hv]
        rw [dqAppend_eq_concat s.window_size s.imbalances v hws, List.dropLast_concat]
    · intro z hz
      dsimp only at hz ⊢
      rw [hz] at hrz
      obtain ⟨hlen, hpy⟩ := zGate_ok_some np s.window_size _ _ z hrz
      obtain ⟨hb1, hb2, hb3⟩ := py_z_score_ok np _ _ z hpy
      refine ⟨le_antisymm (retStep_length_le np s mid hlr) hlen, hb1, hb2, ?_⟩
      intro hw2 hstd
      obtain ⟨v, hv, hzv⟩ := hb3 hw2 hstd
      rw [Option.some.injEq] at hv
      refine ⟨v, by rw [hv], hzv, ?_⟩
      cases hpm : s.prev_mid with
      | none =>
        have hre : s.returns = [] := hpe hpm
        have : (SignalEngine.retStep np s mid).2 = s.returns := by
          simp [SignalEngine.retStep, hpm]
        rw [this, hre] at hlen
        simp at hlen
        omega
      | some pm =>
        have hpos := hpp pm hpm
        have hr2 : (SignalEngine.retStep np s mid).2 =
            dqAppend s.window_size s.returns (np.log (mid / pm)) ∧
            (SignalEngine.retStep np s mid).1 = np.log (mid / pm) := by
          constructor <;> simp [SignalEngine.retStep, hpm, if_pos hpos]
        rw [hr2.1, dqAppend_eq_concat s.window_size s.returns (np.log (mid / pm)) hws,
          List.dropLast_concat]
        rw [← hv, hr2.2]

/-- Witness for `zscore_gating_and_formula`: a fresh engine with window size
1 sees its imbalance window fill on the first update, so the imbalance
z-score is present (and the gating equivalence is exercised concretely). -/
theorem zscore_gating_and_formula_witness :
    ∃ s' sig, SignalEngine.update ⟨fun _ => 0, fun _ => 0⟩ (SEState.init 1 5)
        ⟨5, [(99, 10)], [(101, 10)]⟩ = .ok (s', sig) ∧
      (sig.imbalance_zscore = none ↔
        sig.mid_price = none ∨ s'.imbalances.length < 1) := by
  have hupd : SignalEngine.update ⟨fun _ => 0, fun _ => 0⟩ (SEState.init 1 5)
      ⟨5, [(99, 10)], [(101, 10)]⟩ =
      .ok (⟨1, 5, [100], [], [0], some 100⟩,
        ⟨some 100, some 2, some 0, some 0, some 0, none⟩) := by
    norm_num [SignalEngine.update, SignalEngine.retStep, SignalEngine.imbPush,
      SignalEngine.zGate, SEState.init, OrderBook.mid_price, OrderBook.best_bid,
      OrderBook.best_ask, OrderBook.spread, SEState.calc_depth_imbalance,
      OrderBook.top_depth, dqAppend, py_z_score, npMean, npVar, Except.map]
  refine ⟨_, _, hupd, ?_⟩
  have h := zscore_gating_and_formula ⟨fun _ => 0, fun _ => 0⟩ (SEState.init 1 5)
      ⟨5, [(99, 10)], [(101, 10)]⟩ _ _ (by simp [SEState.init]) (by simp [SEState.init])
      (by simp [SEState.init])
      (fun _ => rfl) (fun pm hpm => absurd hpm (by simp [SEState.init])) hupd
  exact h.1
